import Mathlib

/-- An HTML node: an element with a tag and children, a text node with its
data, or any other node kind (document, comment, doctype) — the source only
ever inspects whether a node is an element with a given atom or a text node. -/
inductive Node where
  | elem (tag : String) (children : List Node)
  | text (data : String)
  | other (children : List Node)
deriving Repr

/-- The source's `n.FirstChild` / sibling chain, as a list. -/
def children : Node → List Node
  | .elem _ cs => cs
  | .text _ => []
  | .other cs => cs

/-- Embeds `n.Type == html.ElementNode && n.DataAtom == atom.Table`. -/
def isTableNode : Node → Bool
  | .elem t _ => t == "table"
  | _ => false

/-- Embeds `n.Type == html.ElementNode && (n.DataAtom == atom.Thead || n.DataAtom == atom.Tbody)`. -/
def isTheadTbody : Node → Bool
  | .elem t _ => t == "thead" || t == "tbody"
  | _ => false

/-- Embeds `n.Type == html.ElementNode && n.DataAtom == atom.Tr`. -/
def isTrNode : Node → Bool
  | .elem t _ => t == "tr"
  | _ => false

/-- Embeds `n.Type == html.ElementNode && (n.DataAtom == atom.Th || n.DataAtom == atom.Td)`. -/
def isThTd : Node → Bool
  | .elem t _ => t == "th" || t == "td"
  | _ => false

/-- Embeds `n.Type == html.TextNode`. -/
def isTextNode : Node → Bool
  | .text _ => true
  | _ => false

/-- Reads `n.Data` of a text node (only ever read on text nodes). -/
def textData : Node → String
  | .text s => s
  | _ => ""

mutual
/-- Number of nodes in a tree (termination measure for the pointer walks). -/
def nodeSize : Node → Nat
  | .elem _ cs => 1 + sizeList cs
  | .text _ => 1
  | .other cs => 1 + sizeList cs

/-- Number of nodes in a forest. -/
def sizeList : List Node → Nat
  | [] => 0
  | c :: cs => nodeSize c + sizeList cs
end

/-- Total size of the ancestor frames of a zipper position. -/
def sizeFrames : List (List Node) → Nat
  | [] => 0
  | f :: fs => sizeList f + sizeFrames fs

/-- Whitespace as recognized by `strings.TrimSpace` (`unicode.IsSpace`),
restricted to the ASCII whitespace that can occur in the claims; exotic
Unicode space code points are not modelled. -/
def isSpaceGo (c : Char) : Bool :=
  c == ' ' || c == '\t' || c == '\n' || c == '\x0d' || c == '\x0b' || c == '\x0c'

/-- Embeds `strings.TrimSpace`: remove leading and trailing whitespace. -/
def trimSpaceGo (s : String) : String :=
  String.mk (((s.data.dropWhile isSpaceGo).reverse.dropWhile isSpaceGo).reverse)

/-- Measure of a walk state: focus subtree + right siblings + all frames. -/
def measureW (n : Node) (rs : List Node) (fs : List (List Node)) : Nat :=
  nodeSize n + sizeList rs + sizeFrames fs

/-- The cell-content pointer walk of `parseTable` (source lines 64–83),
fuel-indexed: visit `contentNode` starting from the cell's first child; write
the data of text nodes; descend into a first child when present; otherwise go
to the next sibling, or — climbing exactly one level — to the parent's next
sibling when the parent is not the cell itself (a nil parent-sibling ends the
loop).  Returns `none` only when out of fuel; `measureW` fuel always suffices
(the loop's termination argument, proved below). -/
def walkContentF : Nat → Node → List Node → List (List Node) → Option String
  | 0, _, _, _ => none
  | f+1, n, rs, fs =>
    if isTextNode n then
      match rs, fs with
      | r :: rs', _ => (walkContentF f r rs' fs).map (textData n ++ ·)
      | [], (g :: gs) :: fs' => (walkContentF f g gs fs').map (textData n ++ ·)
      | [], _ => some (textData n)
    else
      match children n, rs, fs with
      | c :: cs', _, _ => walkContentF f c cs' (rs :: fs)
      | [], r :: rs', _ => walkContentF f r rs' fs
      | [], [], (g :: gs) :: fs' => walkContentF f g gs fs'
      | [], [], _ => some ""

/-- The cell-content walk run with sufficient fuel. -/
def walkContent (n : Node) (rs : List Node) (fs : List (List Node)) : String :=
  (walkContentF (measureW n rs fs) n rs fs).getD ""

/-- Text content of one cell: `contentBuffer` accumulated by the walk over the
cell's children, then `strings.TrimSpace` (source lines 62–84). -/
def cellText (cellNode : Node) : String :=
  trimSpaceGo (match children cellNode with
   | [] => ""
   | c :: cs => walkContent c cs [])

/-- Cells of one `tr` row: each `th`/`td` child contributes its text
(source lines 57–87). -/
def parseRow (rowNode : Node) : List String :=
  (children rowNode).filterMap fun c =>
    if isThTd c then some (cellText c) else none

/-- The function `parseTable` (source lines 40–96): rows of every `thead`/`tbody` child of
the table element, in order; each `tr` child of such a group yields one row. -/
def parseTable (tableNode : Node) : List (List String) :=
  ((children tableNode).map fun b =>
    if isTheadTbody b then
      (children b).filterMap fun r => if isTrNode r then some (parseRow r) else none
    else []).flatten

/-- The document pointer walk of `parseTables` (source lines 19–35),
fuel-indexed: when the focus is a table element, extract it via `parseTable`
and do NOT descend into it; otherwise descend into a first child when
present; then advance to the next sibling, or — climbing exactly one level,
and only when the parent is not the document and has a next sibling — to the
parent's next sibling; otherwise the loop ends.  Returns `none` only when out
of fuel; `measureW` fuel always suffices (proved below). -/
def walkTablesF : Nat → Node → List Node → List (List Node) →
    Option (List (List (List String)))
  | 0, _, _, _ => none
  | f+1, n, rs, fs =>
    if isTableNode n then
      match rs, fs with
      | r :: rs', _ => (walkTablesF f r rs' fs).map (parseTable n :: ·)
      | [], (g :: gs) :: fs' => (walkTablesF f g gs fs').map (parseTable n :: ·)
      | [], _ => some [parseTable n]
    else
      match children n, rs, fs with
      | c :: cs', _, _ => walkTablesF f c cs' (rs :: fs)
      | [], r :: rs', _ => walkTablesF f r rs' fs
      | [], [], (g :: gs) :: fs' => walkTablesF f g gs fs'
      | [], [], _ => some []

/-- The document walk run with sufficient fuel. -/
def walkTables (n : Node) (rs : List Node) (fs : List (List Node)) :
    List (List (List String)) :=
  (walkTablesF (measureW n rs fs) n rs fs).getD []

/-- The function `parseTables` (source lines 12–38) on the parsed document's child list:
the walk starts at the document's first child (the document node itself is
neither a table nor text, so the first iteration descends into it). -/
def parseTables (docChildren : List Node) : List (List (List String)) :=
  match docChildren with
  | [] => []
  | c :: cs => walkTables c cs []

mutual
/-- Number of `table` elements anywhere in a tree (document-order count, used
to compare against what `parseTables` extracts). -/
def countTables : Node → Nat
  | .elem t cs => (if t == "table" then 1 else 0) + countTablesList cs
  | .text _ => 0
  | .other cs => countTablesList cs

/-- Number of `table` elements anywhere in a forest. -/
def countTablesList : List Node → Nat
  | [] => 0
  | c :: cs => countTables c + countTablesList cs
end

mutual
/-- Concatenation of ALL descendant text nodes in document order — the
specification's description of cell text, stated independently of the
source's walk so the two can be compared. -/
def allTexts : Node → String
  | .elem _ cs => allTextsList cs
  | .text s => s
  | .other cs => allTextsList cs

/-- Concatenation of all text nodes of a forest in document order. -/
def allTextsList : List Node → String
  | [] => ""
  | c :: cs => allTexts c ++ allTextsList cs
end

/-- The table elements the traversal can reach in a shallow document: each
document child that is a table, and the table children of the non-table
document children, in document order. -/
def topTables : List Node → List Node
  | [] => []
  | c :: cs =>
    (if isTableNode c then [c] else (children c).filter isTableNode)
      ++ topTables cs

/-- Embeds `strings.Split(s, " ")`: fields between the space separators, empties
kept. -/
def splitSpaceAux : List Char → List Char → List String
  | [], acc => [String.mk acc.reverse]
  | c :: cs, acc =>
    if c = ' ' then String.mk acc.reverse :: splitSpaceAux cs []
    else splitSpaceAux cs (c :: acc)

/-- Embeds `strings.Split(s, " ")`. -/
def splitSpace (s : String) : List String := splitSpaceAux s.data []

/-- Value of a list of decimal digit characters. -/
def digitsVal (cs : List Char) : Nat :=
  cs.foldl (fun a c => 10 * a + (c.toNat - '0'.toNat)) 0

/-- Strip an optional leading sign; `true` means negative. -/
def stripSign : List Char → Bool × List Char
  | '+' :: cs => (false, cs)
  | '-' :: cs => (true, cs)
  | cs => (false, cs)

/-- Embeds `strconv.ParseInt(s, 10, 64)`: optional sign, then one or more decimal
digits, result within the int64 range; `none` models a non-nil error. -/
def parseIntGo (s : String) : Option Int :=
  let (neg, ds) := stripSign s.data
  if ds ≠ [] ∧ ds.all Char.isDigit then
    let v : Int := if neg then -(digitsVal ds : Int) else (digitsVal ds : Int)
    if -(2 ^ 63) ≤ v ∧ v < 2 ^ 63 then some v else none
  else none

/-- Two's-complement wrap of Go `int64` arithmetic (the kHz multiplication
can overflow). -/
def wrap64 (x : Int) : Int :=
  if -(2 ^ 63) ≤ x ∧ x < 2 ^ 63 then x else (x + 2 ^ 63) % 2 ^ 64 - 2 ^ 63

/-- An exact decimal value `mant / 10 ^ exp`: every numeric value the scrape
code produces (int64 conversions and parsed decimal floats) is of this form.
float64 rounding is not modelled; all claim-relevant values are small and
exactly representable. -/
structure DecValue where
  mant : Int
  exp : Nat
deriving DecidableEq, Repr

/-- The decimal value of an integer. -/
def DecValue.ofInt (n : Int) : DecValue := ⟨n, 0⟩

/-- Split on the decimal point. -/
def splitDotAux : List Char → List Char → List (List Char)
  | [], acc => [acc.reverse]
  | c :: cs, acc =>
    if c = '.' then acc.reverse :: splitDotAux cs []
    else splitDotAux cs (c :: acc)

/-- Embeds `strconv.ParseFloat(s, 64)` restricted to plain decimal forms: optional
sign, digits with an optional single decimal point ("35", "3.5", "3.", ".5");
exponent, hex and inf/NaN forms are not modelled (no device cell uses them).
`none` models a non-nil error. -/
def parseFloatGo (s : String) : Option DecValue :=
  let (neg, cs) := stripSign s.data
  let sign : Nat → Int := fun n => if neg then -(n : Int) else (n : Int)
  match splitDotAux cs [] with
  | [ip] =>
    if ip ≠ [] ∧ ip.all Char.isDigit then some ⟨sign (digitsVal ip), 0⟩ else none
  | [ip, fp] =>
    if (ip ≠ [] ∨ fp ≠ []) ∧ ip.all Char.isDigit ∧ fp.all Char.isDigit then
      some ⟨sign (digitsVal ip * 10 ^ fp.length + digitsVal fp), fp.length⟩
    else none
  | _ => none

/-- Embeds `fmt.Sprintf("%02d", n)`: decimal representation, zero-padded on the left
to a MINIMUM total width of 2 (three or more digits are printed in full). -/
def sprintf02d (n : Int) : String :=
  let s := if n < 0 then "-" ++ Nat.repr (-n).toNat else Nat.repr n.toNat
  if s.length < 2 then "0" ++ s else s

/-- The `namespace` constant of the exporter. -/
def namespaceGo : String := "tc4400"

/-- Embeds `prometheus.BuildFQName`: the non-empty components joined by `_`
(empty result when the name is empty). -/
def buildFQName (ns sub name : String) : String :=
  if name = "" then ""
  else String.intercalate "_"
    (((if ns = "" then [] else [ns]) ++ (if sub = "" then [] else [sub])) ++ [name])

/-- What a `prometheus.Desc` determines for the claims: the fully qualified
metric name and its variable label names (doc strings are not modelled). -/
structure Desc where
  fqName : String
  labelNames : List String
deriving DecidableEq, Repr

/-- The helper `newChannelMetric`: a channel-labelled descriptor of the given subsystem
and name, with optional extra labels. -/
def newChannelMetric (subsystemName metricName : String)
    (extraLabels : List String) : Desc :=
  ⟨buildFQName namespaceGo subsystemName metricName, ["channel"] ++ extraLabels⟩

/-- The descriptor `targetUpMetric` (`tc4400_up`). -/
def targetUpMetric : Desc := ⟨buildFQName namespaceGo "" "up", []⟩

/-- The map `networkMetrics`: the column-index → descriptor map for statsifc.html,
as its entry list (Go iterates maps in unspecified order; functions below are
parameterized by an iteration order, which is a permutation of this list). -/
def networkMetrics : List (Nat × Desc) :=
  [(1, ⟨buildFQName namespaceGo "network" "receive_bytes_total", ["interface"]⟩),
   (2, ⟨buildFQName namespaceGo "network" "receive_packets_total", ["interface"]⟩),
   (3, ⟨buildFQName namespaceGo "network" "receive_errs_total", ["interface"]⟩),
   (4, ⟨buildFQName namespaceGo "network" "receive_drop_total", ["interface"]⟩),
   (5, ⟨buildFQName namespaceGo "network" "transmit_bytes_total", ["interface"]⟩),
   (6, ⟨buildFQName namespaceGo "network" "transmit_packets_total", ["interface"]⟩),
   (7, ⟨buildFQName namespaceGo "network" "transmit_errs_total", ["interface"]⟩),
   (8, ⟨buildFQName namespaceGo "network" "transmit_drop_total", ["interface"]⟩)]

/-- The map `downstreamChannelMetrics`: column-index → descriptor for the downstream
channel table of cmconnectionstatus.html. -/
def downstreamChannelMetrics : List (Nat × Desc) :=
  [(2, newChannelMetric "downstream" "locked" []),
   (3, newChannelMetric "downstream" "channel_type" ["type"]),
   (4, newChannelMetric "downstream" "bonded" []),
   (5, newChannelMetric "downstream" "center_frequency_hz" []),
   (6, newChannelMetric "downstream" "width_hz" []),
   (7, newChannelMetric "downstream" "snr_threshold_db" []),
   (8, newChannelMetric "downstream" "receive_level_dbmv" []),
   (9, newChannelMetric "downstream" "modulation" ["modulation"]),
   (10, newChannelMetric "downstream" "codewords_unerrored_total" []),
   (11, newChannelMetric "downstream" "codewords_corrected_total" []),
   (12, newChannelMetric "downstream" "codewords_uncorrectable_total" [])]

/-- The map `upstreamChannelMetrics`: column-index → descriptor for the upstream
channel table of cmconnectionstatus.html. -/
def upstreamChannelMetrics : List (Nat × Desc) :=
  [(2, newChannelMetric "upstream" "locked" []),
   (3, newChannelMetric "upstream" "channel_type" ["type"]),
   (4, newChannelMetric "upstream" "bonded" []),
   (5, newChannelMetric "upstream" "center_frequency_hz" []),
   (6, newChannelMetric "upstream" "width_hz" []),
   (7, newChannelMetric "upstream" "transmit_level_dbmv" []),
   (8, newChannelMetric "upstream" "modulation" ["modulation"])]

/-- Embeds `prometheus.ValueType` as used by the source. -/
inductive VType where
  | counter
  | gauge
deriving DecidableEq, Repr

/-- One emitted metric sample (`prometheus.MustNewConstMetric`):
descriptor, value type, value, and the variable label values. -/
structure Metric where
  desc : Desc
  vtype : VType
  value : DecValue
  labelValues : List String
deriving DecidableEq, Repr

/-- Outcome of decoding one column of one row: emit a sample, silently skip
(`continue` before the error check), or fail (a non-nil `err` reaching the
error check, which increments the page's parse-failure counter). -/
inductive CellResult where
  | emit (m : Metric)
  | skip
  | fail
deriving DecidableEq, Repr

/-- The loop body for one `networkMetrics` entry (source lines 284–293):
`strconv.ParseInt(row[i], 10, 64)`, error → counter increment and continue,
else emit with the interface label `row[0]`. -/
def decodeNetworkCell (row : List String) (i : Nat) (d : Desc) : CellResult :=
  match parseIntGo (row.getD i "") with
  | none => .fail
  | some v => .emit ⟨d, .counter, .ofInt v, [row.getD 0 ""]⟩

/-- Outcome of one of the numeric sub-decodes inside a switch case: a value,
a silent `continue` (skip), or a `ParseInt`/`ParseFloat` error that reaches
the error check (fail). -/
inductive NumResult where
  | val (v : DecValue)
  | skip
  | fail
deriving DecidableEq, Repr

/-- The `"<int><space><unit>"` decode of cases 5 and 6 (source lines
352–365): split on spaces; not exactly two fields → continue; parse the
integer (a failure is checked only later); `Hz` → ×1, `kHz` → ×1000; any
other unit → `continue` BEFORE the error check (so an unrecognized unit
never counts as a parse failure); finally the error check. -/
def decodeUnitInt (s : String) : NumResult :=
  match splitSpace s with
  | [a, u] =>
    if u = "Hz" ∨ u = "kHz" then
      match parseIntGo a with
      | none => .fail
      | some v => .val (.ofInt (if u = "kHz" then wrap64 (v * 1000) else v))
    else .skip
  | _ => .skip

/-- The `"<float><space><unit>"` decode of cases 7 and 8 (source lines
366–377): split on spaces; not exactly two fields or a unit other than the
single expected one → continue; then `strconv.ParseFloat` with its error
reaching the error check. -/
def decodeUnitFloat (s unit : String) : NumResult :=
  match splitSpace s with
  | [a, u] =>
    if u = unit then
      match parseFloatGo a with
      | none => .fail
      | some v => .val v
    else .skip
  | _ => .skip

/-- Lift a numeric sub-decode to a cell result with the given descriptor and
label values. -/
def NumResult.toCell (r : NumResult) (d : Desc) (labels : List String) :
    CellResult :=
  match r with
  | .val v => .emit ⟨d, .counter, v, labels⟩
  | .skip => .skip
  | .fail => .fail

/-- The switch body for one `downstreamChannelMetrics` entry (source lines
328–388), given the formatted channel label: cases 10/11/12 direct integer;
case 2 equality with "Locked"; cases 3/9 categorical label with value 1;
case 4 equality with "Bonded"; cases 5/6 unit-suffixed integer; case 7
unit-suffixed float "dB"; case 8 unit-suffixed float "dBmV"; any other
column index → continue. -/
def decodeDownstreamCell (channelLabel : String) (row : List String)
    (i : Nat) (d : Desc) : CellResult :=
  if i = 10 ∨ i = 11 ∨ i = 12 then
    match parseIntGo (row.getD i "") with
    | none => .fail
    | some v => .emit ⟨d, .counter, .ofInt v, [channelLabel]⟩
  else if i = 2 then
    .emit ⟨d, .counter,
      .ofInt (if row.getD i "" = "Locked" then 1 else 0), [channelLabel]⟩
  else if i = 3 ∨ i = 9 then
    .emit ⟨d, .counter, .ofInt 1, [channelLabel, row.getD i ""]⟩
  else if i = 4 then
    .emit ⟨d, .counter,
      .ofInt (if row.getD i "" = "Bonded" then 1 else 0), [channelLabel]⟩
  else if i = 5 ∨ i = 6 then
    (decodeUnitInt (row.getD i "")).toCell d [channelLabel]
  else if i = 7 then
    (decodeUnitFloat (row.getD i "") "dB").toCell d [channelLabel]
  else if i = 8 then
    (decodeUnitFloat (row.getD i "") "dBmV").toCell d [channelLabel]
  else .skip

/-- The switch body for one `upstreamChannelMetrics` entry (source lines
405–448): case 2 "Locked"; cases 3/8 categorical; case 4 "Bonded"; cases 5/6
unit-suffixed integer; case 7 unit-suffixed float "dBmV"; otherwise
continue. -/
def decodeUpstreamCell (channelLabel : String) (row : List String)
    (i : Nat) (d : Desc) : CellResult :=
  if i = 2 then
    .emit ⟨d, .counter,
      .ofInt (if row.getD i "" = "Locked" then 1 else 0), [channelLabel]⟩
  else if i = 3 ∨ i = 8 then
    .emit ⟨d, .counter, .ofInt 1, [channelLabel, row.getD i ""]⟩
  else if i = 4 then
    .emit ⟨d, .counter,
      .ofInt (if row.getD i "" = "Bonded" then 1 else 0), [channelLabel]⟩
  else if i = 5 ∨ i = 6 then
    (decodeUnitInt (row.getD i "")).toCell d [channelLabel]
  else if i = 7 then
    (decodeUnitFloat (row.getD i "") "dBmV").toCell d [channelLabel]
  else .skip

/-- Run the per-entry decode over a rule-map iteration order: emitted samples
in iteration order plus the number of parse-failure counter increments. -/
def processEntries (f : Nat → Desc → CellResult) :
    List (Nat × Desc) → List Metric × Nat
  | [] => ([], 0)
  | (i, d) :: rest =>
    let t := processEntries f rest
    match f i d with
    | .emit m => (m :: t.1, t.2)
    | .skip => t
    | .fail => (t.1, t.2 + 1)

/-- One row of the statsifc.html interface table (source lines 279–294):
rows whose cell count is not exactly 9 are silently skipped; otherwise every
rule-map entry is decoded independently. -/
def processNetworkRow (σn : List (Nat × Desc)) (row : List String) :
    List Metric × Nat :=
  if row.length ≠ 9 then ([], 0)
  else processEntries (decodeNetworkCell row) σn

/-- One row of the downstream channel table (source lines 315–389): cell
count must be exactly 13; then the channel index `row[1]` is parsed — on
error one counter increment and the whole row is dropped; otherwise the
channel label is `%02d`-formatted and every rule-map entry decoded. -/
def processDownstreamRow (σd : List (Nat × Desc)) (row : List String) :
    List Metric × Nat :=
  if row.length ≠ 13 then ([], 0)
  else
    match parseIntGo (row.getD 1 "") with
    | none => ([], 1)
    | some channel =>
      processEntries (decodeDownstreamCell (sprintf02d channel) row) σd

/-- One row of the upstream channel table (source lines 392–457): cell count
must be exactly 9; then as for the downstream table. -/
def processUpstreamRow (σu : List (Nat × Desc)) (row : List String) :
    List Metric × Nat :=
  if row.length ≠ 9 then ([], 0)
  else
    match parseIntGo (row.getD 1 "") with
    | none => ([], 1)
    | some channel =>
      processEntries (decodeUpstreamCell (sprintf02d channel) row) σu

/-- Fold a per-row processor over a table's rows, concatenating emissions and
summing failure counts. -/
def sumRows (f : List String → List Metric × Nat) :
    List (List String) → List Metric × Nat
  | [] => ([], 0)
  | r :: rest =>
    let a := f r
    let b := sumRows f rest
    (a.1 ++ b.1, a.2 + b.2)

/-- What one page fetch+parse produced, as seen by `scrape`: a transport
error (`fetch` returned an error), an `html.Parse` error, or the parsed
document's child list. -/
inductive PageResult where
  | fetchError
  | parseError
  | doc (docChildren : List Node)

/-- The statsifc.html half of `scrape` (source lines 265–297): a fetch error
contributes nothing (not even a counter increment); a parse error one
increment; then the structural check `len(tables) < 1 || len(tables[0]) < 2`
— on failure one increment and no rows decoded; otherwise the rows of
`tables[0][2:]`. -/
def processStatsifc (σn : List (Nat × Desc)) : PageResult → List Metric × Nat
  | .fetchError => ([], 0)
  | .parseError => ([], 1)
  | .doc cs =>
    if (parseTables cs).length < 1 ∨ ((parseTables cs).getD 0 []).length < 2
    then ([], 1)
    else sumRows (processNetworkRow σn) (((parseTables cs).getD 0 []).drop 2)

/-- The cmconnectionstatus.html half of `scrape` (source lines 299–461):
structural check `len(tables) < 3 || len(tables[1]) < 2 || len(tables[2]) <
2` — on failure one increment and no rows decoded; otherwise the downstream
rows `tables[1][2:]` then the upstream rows `tables[2][2:]`. -/
def processCmconn (σd σu : List (Nat × Desc)) : PageResult → List Metric × Nat
  | .fetchError => ([], 0)
  | .parseError => ([], 1)
  | .doc cs =>
    if (parseTables cs).length < 3 ∨ ((parseTables cs).getD 1 []).length < 2
        ∨ ((parseTables cs).getD 2 []).length < 2 then ([], 1)
    else
      ((sumRows (processDownstreamRow σd) (((parseTables cs).getD 1 []).drop 2)).1
        ++ (sumRows (processUpstreamRow σu) (((parseTables cs).getD 2 []).drop 2)).1,
       (sumRows (processDownstreamRow σd) (((parseTables cs).getD 1 []).drop 2)).2
        + (sumRows (processUpstreamRow σu) (((parseTables cs).getD 2 []).drop 2)).2)

/-- Result of one `scrape` call: the samples sent to the channel in order,
the per-page parse-failure counter increments, and the returned `up` value
(the source's final `return 1`, reached unconditionally). -/
structure ScrapeOut where
  emissions : List Metric
  statsifcFailures : Nat
  cmconnFailures : Nat
  up : DecValue
deriving DecidableEq, Repr

/-- The method `Exporter.scrape` parameterized by the iteration orders of the three Go
rule maps (Go map range order is unspecified; a legal order is any
permutation of the entry list). -/
def scrapeWith (σn σd σu : List (Nat × Desc)) (p1 p2 : PageResult) :
    ScrapeOut :=
  let a := processStatsifc σn p1
  let b := processCmconn σd σu p2
  ⟨a.1 ++ b.1, a.2, b.2, .ofInt 1⟩

/-- The method `Exporter.scrape` with the rule maps in ascending-key order (one of the
legal iteration orders). -/
def scrape (p1 p2 : PageResult) : ScrapeOut :=
  scrapeWith networkMetrics downstreamChannelMetrics upstreamChannelMetrics p1 p2

/-- The method `Exporter.Collect` (source lines 231–242): the scrape emissions, then the
`tc4400_up` gauge with the value `scrape` returned, then the exporter's
self-metrics (`totalScrapes`, the counter vectors and the histogram vector),
whose concrete samples depend on process-lifetime counter state and are taken
as a parameter. -/
def collectEmissions (p1 p2 : PageResult) (selfSamples : List Metric) :
    List Metric :=
  let s := scrape p1 p2
  s.emissions ++ [⟨targetUpMetric, .gauge, s.up, []⟩] ++ selfSamples

theorem nodeSize_pos (n : Node) : 1 ≤ nodeSize n := by
  cases n <;> simp [nodeSize]

theorem nodeSize_eq (n : Node) : nodeSize n = 1 + sizeList (children n) := by
  cases n <;> simp [nodeSize, children, sizeList]

theorem measureW_pos (n : Node) (rs : List Node) (fs : List (List Node)) :
    1 ≤ measureW n rs fs := by
  have := nodeSize_pos n
  unfold measureW
  omega

theorem measure_sib (n r : Node) (rs' : List Node) (fs : List (List Node)) :
    measureW r rs' fs < measureW n (r :: rs') fs := by
  have := nodeSize_pos n
  simp only [measureW, sizeList]
  omega

theorem measure_climb (n g : Node) (gs : List Node) (fs' : List (List Node)) :
    measureW g gs fs' < measureW n [] ((g :: gs) :: fs') := by
  have := nodeSize_pos n
  simp only [measureW, sizeList, sizeFrames]
  omega

theorem measure_desc {n c : Node} {cs' : List Node} (rs : List Node)
    (fs : List (List Node)) (hc : children n = c :: cs') :
    measureW c cs' (rs :: fs) < measureW n rs fs := by
  have h := nodeSize_eq n
  rw [hc] at h
  simp only [measureW, sizeList, sizeFrames] at h ⊢
  omega

theorem walkTablesF_congr : ∀ (f f' : Nat) (n : Node) (rs : List Node)
    (fs : List (List Node)), measureW n rs fs ≤ f → measureW n rs fs ≤ f' →
    walkTablesF f n rs fs = walkTablesF f' n rs fs := by
  intro f
  induction f using Nat.strong_induction_on with
  | _ f ih =>
    intro f' n rs fs hf hf'
    match f, f' with
    | 0, _ => exact absurd hf (by have := measureW_pos n rs fs; omega)
    | _ + 1, 0 => exact absurd hf' (by have := measureW_pos n rs fs; omega)
    | f0 + 1, f1 + 1 =>
      cases hb : isTableNode n with
      | true =>
        cases rs with
        | cons r rs' =>
          simp only [walkTablesF, hb, if_true]
          rw [ih f0 (by omega) f1 r rs' fs
            (by have := measure_sib n r rs' fs; omega)
            (by have := measure_sib n r rs' fs; omega)]
        | nil =>
          cases fs with
          | nil => simp only [walkTablesF, hb, if_true]
          | cons fr fs' =>
            cases fr with
            | nil => simp only [walkTablesF, hb, if_true]
            | cons g gs =>
              simp only [walkTablesF, hb, if_true]
              rw [ih f0 (by omega) f1 g gs fs'
                (by have := measure_climb n g gs fs'; omega)
                (by have := measure_climb n g gs fs'; omega)]
      | false =>
        rcases hch : children n with _ | ⟨c, cs'⟩
        · cases rs with
          | cons r rs' =>
            simp only [walkTablesF, hb, hch, Bool.false_eq_true, if_false]
            rw [ih f0 (by omega) f1 r rs' fs
              (by have := measure_sib n r rs' fs; omega)
              (by have := measure_sib n r rs' fs; omega)]
          | nil =>
            cases fs with
            | nil => simp only [walkTablesF, hb, hch, Bool.false_eq_true, if_false]
            | cons fr fs' =>
              cases fr with
              | nil => simp only [walkTablesF, hb, hch, Bool.false_eq_true, if_false]
              | cons g gs =>
                simp only [walkTablesF, hb, hch, Bool.false_eq_true, if_false]
                rw [ih f0 (by omega) f1 g gs fs'
                  (by have := measure_climb n g gs fs'; omega)
                  (by have := measure_climb n g gs fs'; omega)]
        · simp only [walkTablesF, hb, hch, Bool.false_eq_true, if_false]
          rw [ih f0 (by omega) f1 c cs' (rs :: fs)
            (by have := measure_desc rs fs hch; omega)
            (by have := measure_desc rs fs hch; omega)]

theorem walkTablesF_isSome : ∀ (f : Nat) (n : Node) (rs : List Node)
    (fs : List (List Node)), measureW n rs fs ≤ f →
    (walkTablesF f n rs fs).isSome := by
  intro f
  induction f with
  | zero =>
    intro n rs fs h
    exact absurd h (by have := measureW_pos n rs fs; omega)
  | succ f0 ih =>
    intro n rs fs h
    cases hb : isTableNode n with
    | true =>
      cases rs with
      | cons r rs' =>
        simp only [walkTablesF, hb, if_true, Option.isSome_map']
        exact ih r rs' fs (by have := measure_sib n r rs' fs; omega)
      | nil =>
        cases fs with
        | nil => simp [walkTablesF, hb]
        | cons fr fs' =>
          cases fr with
          | nil => simp [walkTablesF, hb]
          | cons g gs =>
            simp only [walkTablesF, hb, if_true, Option.isSome_map']
            exact ih g gs fs' (by have := measure_climb n g gs fs'; omega)
    | false =>
      rcases hch : children n with _ | ⟨c, cs'⟩
      · cases rs with
        | cons r rs' =>
          simp only [walkTablesF, hb, hch, Bool.false_eq_true, if_false]
          exact ih r rs' fs (by have := measure_sib n r rs' fs; omega)
        | nil =>
          cases fs with
          | nil => simp [walkTablesF, hb, hch]
          | cons fr fs' =>
            cases fr with
            | nil => simp [walkTablesF, hb, hch]
            | cons g gs =>
              simp only [walkTablesF, hb, hch, Bool.false_eq_true, if_false]
              exact ih g gs fs' (by have := measure_climb n g gs fs'; omega)
      · simp only [walkTablesF, hb, hch, Bool.false_eq_true, if_false]
        exact ih c cs' (rs :: fs) (by have := measure_desc rs fs hch; omega)

theorem walkTables_eqF {f : Nat} {n : Node} {rs : List Node}
    {fs : List (List Node)} (h : measureW n rs fs ≤ f) :
    walkTablesF f n rs fs = some (walkTables n rs fs) := by
  obtain ⟨v, hv⟩ := Option.isSome_iff_exists.mp
    (walkTablesF_isSome (measureW n rs fs) n rs fs (le_refl _))
  rw [walkTablesF_congr f (measureW n rs fs) n rs fs h (le_refl _), hv]
  unfold walkTables
  rw [hv]
  rfl

theorem walkTables_unfold (n : Node) (rs : List Node) (fs : List (List Node)) :
    walkTables n rs fs =
      if isTableNode n then
        match rs, fs with
        | r :: rs', _ => parseTable n :: walkTables r rs' fs
        | [], (g :: gs) :: fs' => parseTable n :: walkTables g gs fs'
        | [], _ => [parseTable n]
      else
        match children n, rs, fs with
        | c :: cs', _, _ => walkTables c cs' (rs :: fs)
        | [], r :: rs', _ => walkTables r rs' fs
        | [], [], (g :: gs) :: fs' => walkTables g gs fs'
        | [], [], _ => [] := by
  obtain ⟨m, hm⟩ : ∃ m, measureW n rs fs = m + 1 := by
    have := measureW_pos n rs fs
    exact ⟨measureW n rs fs - 1, by omega⟩
  have base : walkTables n rs fs = (walkTablesF (m + 1) n rs fs).getD [] := by
    unfold walkTables
    rw [hm]
  cases hb : isTableNode n with
  | true =>
    cases rs with
    | cons r rs' =>
      rw [base]
      simp only [walkTablesF, hb, if_true]
      rw [walkTables_eqF
        (show measureW r rs' fs ≤ m by have := measure_sib n r rs' fs; omega)]
      simp
    | nil =>
      cases fs with
      | nil => rw [base]; simp [walkTablesF, hb]
      | cons fr fs' =>
        cases fr with
        | nil => rw [base]; simp [walkTablesF, hb]
        | cons g gs =>
          rw [base]
          simp only [walkTablesF, hb, if_true]
          rw [walkTables_eqF
            (show measureW g gs fs' ≤ m by have := measure_climb n g gs fs'; omega)]
          simp
  | false =>
    rcases hch : children n with _ | ⟨c, cs'⟩
    · cases rs with
      | cons r rs' =>
        rw [base]
        simp only [walkTablesF, hb, hch, Bool.false_eq_true, if_false]
        rw [walkTables_eqF
          (show measureW r rs' fs ≤ m by have := measure_sib n r rs' fs; omega)]
        simp [hb, hch]
      | nil =>
        cases fs with
        | nil => rw [base]; simp [walkTablesF, hb, hch]
        | cons fr fs' =>
          cases fr with
          | nil => rw [base]; simp [walkTablesF, hb, hch]
          | cons g gs =>
            rw [base]
            simp only [walkTablesF, hb, hch, Bool.false_eq_true, if_false]
            rw [walkTables_eqF
              (show measureW g gs fs' ≤ m by
                have := measure_climb n g gs fs'; omega)]
            simp [hb, hch]
    · rw [base]
      simp only [walkTablesF, hb, hch, Bool.false_eq_true, if_false]
      rw [walkTables_eqF
        (show measureW c cs' (rs :: fs) ≤ m by
          have := measure_desc rs fs hch; omega)]
      simp [hb, hch]

theorem walkContentF_congr : ∀ (f f' : Nat) (n : Node) (rs : List Node)
    (fs : List (List Node)), measureW n rs fs ≤ f → measureW n rs fs ≤ f' →
    walkContentF f n rs fs = walkContentF f' n rs fs := by
  intro f
  induction f using Nat.strong_induction_on with
  | _ f ih =>
    intro f' n rs fs hf hf'
    match f, f' with
    | 0, _ => exact absurd hf (by have := measureW_pos n rs fs; omega)
    | _ + 1, 0 => exact absurd hf' (by have := measureW_pos n rs fs; omega)
    | f0 + 1, f1 + 1 =>
      cases hb : isTextNode n with
      | true =>
        cases rs with
        | cons r rs' =>
          simp only [walkContentF, hb, if_true]
          rw [ih f0 (by omega) f1 r rs' fs
            (by have := measure_sib n r rs' fs; omega)
            (by have := measure_sib n r rs' fs; omega)]
        | nil =>
          cases fs with
          | nil => simp only [walkContentF, hb, if_true]
          | cons fr fs' =>
            cases fr with
            | nil => simp only [walkContentF, hb, if_true]
            | cons g gs =>
              simp only [walkContentF, hb, if_true]
              rw [ih f0 (by omega) f1 g gs fs'
                (by have := measure_climb n g gs fs'; omega)
                (by have := measure_climb n g gs fs'; omega)]
      | false =>
        rcases hch : children n with _ | ⟨c, cs'⟩
        · cases rs with
          | cons r rs' =>
            simp only [walkContentF, hb, hch, Bool.false_eq_true, if_false]
            rw [ih f0 (by omega) f1 r rs' fs
              (by have := measure_sib n r rs' fs; omega)
              (by have := measure_sib n r rs' fs; omega)]
          | nil =>
            cases fs with
            | nil => simp only [walkContentF, hb, hch, Bool.false_eq_true, if_false]
            | cons fr fs' =>
              cases fr with
              | nil =>
                simp only [walkContentF, hb, hch, Bool.false_eq_true, if_false]
              | cons g gs =>
                simp only [walkContentF, hb, hch, Bool.false_eq_true, if_false]
                rw [ih f0 (by omega) f1 g gs fs'
                  (by have := measure_climb n g gs fs'; omega)
                  (by have := measure_climb n g gs fs'; omega)]
        · simp only [walkContentF, hb, hch, Bool.false_eq_true, if_false]
          rw [ih f0 (by omega) f1 c cs' (rs :: fs)
            (by have := measure_desc rs fs hch; omega)
            (by have := measure_desc rs fs hch; omega)]

theorem walkContentF_isSome : ∀ (f : Nat) (n : Node) (rs : List Node)
    (fs : List (List Node)), measureW n rs fs ≤ f →
    (walkContentF f n rs fs).isSome := by
  intro f
  induction f with
  | zero =>
    intro n rs fs h
    exact absurd h (by have := measureW_pos n rs fs; omega)
  | succ f0 ih =>
    intro n rs fs h
    cases hb : isTextNode n with
    | true =>
      cases rs with
      | cons r rs' =>
        simp only [walkContentF, hb, if_true, Option.isSome_map']
        exact ih r rs' fs (by have := measure_sib n r rs' fs; omega)
      | nil =>
        cases fs with
        | nil => simp [walkContentF, hb]
        | cons fr fs' =>
          cases fr with
          | nil => simp [walkContentF, hb]
          | cons g gs =>
            simp only [walkContentF, hb, if_true, Option.isSome_map']
            exact ih g gs fs' (by have := measure_climb n g gs fs'; omega)
    | false =>
      rcases hch : children n with _ | ⟨c, cs'⟩
      · cases rs with
        | cons r rs' =>
          simp only [walkContentF, hb, hch, Bool.false_eq_true, if_false]
          exact ih r rs' fs (by have := measure_sib n r rs' fs; omega)
        | nil =>
          cases fs with
          | nil => simp [walkContentF, hb, hch]
          | cons fr fs' =>
            cases fr with
            | nil => simp [walkContentF, hb, hch]
            | cons g gs =>
              simp only [walkContentF, hb, hch, Bool.false_eq_true, if_false]
              exact ih g gs fs' (by have := measure_climb n g gs fs'; omega)
      · simp only [walkContentF, hb, hch, Bool.false_eq_true, if_false]
        exact ih c cs' (rs :: fs) (by have := measure_desc rs fs hch; omega)

theorem walkContent_eqF {f : Nat} {n : Node} {rs : List Node}
    {fs : List (List Node)} (h : measureW n rs fs ≤ f) :
    walkContentF f n rs fs = some (walkContent n rs fs) := by
  obtain ⟨v, hv⟩ := Option.isSome_iff_exists.mp
    (walkContentF_isSome (measureW n rs fs) n rs fs (le_refl _))
  rw [walkContentF_congr f (measureW n rs fs) n rs fs h (le_refl _), hv]
  unfold walkContent
  rw [hv]
  rfl

theorem walkContent_unfold (n : Node) (rs : List Node) (fs : List (List Node)) :
    walkContent n rs fs =
      if isTextNode n then
        match rs, fs with
        | r :: rs', _ => textData n ++ walkContent r rs' fs
        | [], (g :: gs) :: fs' => textData n ++ walkContent g gs fs'
        | [], _ => textData n
      else
        match children n, rs, fs with
        | c :: cs', _, _ => walkContent c cs' (rs :: fs)
        | [], r :: rs', _ => walkContent r rs' fs
        | [], [], (g :: gs) :: fs' => walkContent g gs fs'
        | [], [], _ => "" := by
  obtain ⟨m, hm⟩ : ∃ m, measureW n rs fs = m + 1 := by
    have := measureW_pos n rs fs
    exact ⟨measureW n rs fs - 1, by omega⟩
  have base : walkContent n rs fs = (walkContentF (m + 1) n rs fs).getD "" := by
    unfold walkContent
    rw [hm]
  cases hb : isTextNode n with
  | true =>
    cases rs with
    | cons r rs' =>
      rw [base]
      simp only [walkContentF, hb, if_true]
      rw [walkContent_eqF
        (show measureW r rs' fs ≤ m by have := measure_sib n r rs' fs; omega)]
      simp
    | nil =>
      cases fs with
      | nil => rw [base]; simp [walkContentF, hb]
      | cons fr fs' =>
        cases fr with
        | nil => rw [base]; simp [walkContentF, hb]
        | cons g gs =>
          rw [base]
          simp only [walkContentF, hb, if_true]
          rw [walkContent_eqF
            (show measureW g gs fs' ≤ m by have := measure_climb n g gs fs'; omega)]
          simp
  | false =>
    rcases hch : children n with _ | ⟨c, cs'⟩
    · cases rs with
      | cons r rs' =>
        rw [base]
        simp only [walkContentF, hb, hch, Bool.false_eq_true, if_false]
        rw [walkContent_eqF
          (show measureW r rs' fs ≤ m by have := measure_sib n r rs' fs; omega)]
        simp [hb, hch]
      | nil =>
        cases fs with
        | nil => rw [base]; simp [walkContentF, hb, hch]
        | cons fr fs' =>
          cases fr with
          | nil => rw [base]; simp [walkContentF, hb, hch]
          | cons g gs =>
            rw [base]
            simp only [walkContentF, hb, hch, Bool.false_eq_true, if_false]
            rw [walkContent_eqF
              (show measureW g gs fs' ≤ m by
                have := measure_climb n g gs fs'; omega)]
            simp [hb, hch]
    · rw [base]
      simp only [walkContentF, hb, hch, Bool.false_eq_true, if_false]
      rw [walkContent_eqF
        (show measureW c cs' (rs :: fs) ≤ m by
          have := measure_desc rs fs hch; omega)]
      simp [hb, hch]

/-- C9: For every finite node tree the two manual pointer-walking loops
terminate: fuel equal to the walk state's node count (`measureW`) always
suffices, so `walkTables` / `walkContent` — and with them `parseTables` and
`cellText` — are total functions of the tree. -/
theorem claim_C9_walk_termination :
    (∀ (n : Node) (rs : List Node) (fs : List (List Node)),
        walkTablesF (measureW n rs fs) n rs fs = some (walkTables n rs fs))
    ∧ (∀ (n : Node) (rs : List Node) (fs : List (List Node)),
        walkContentF (measureW n rs fs) n rs fs = some (walkContent n rs fs)) :=
  ⟨fun _ _ _ => walkTables_eqF (le_refl _),
   fun _ _ _ => walkContent_eqF (le_refl _)⟩

theorem walk_level2 (es : List Node) :
    ∀ (ds : List Node) (d : Node),
      (∀ x ∈ d :: ds, isTableNode x = true ∨ (children x).length = 0) →
      walkTables d ds [es]
        = ((d :: ds).filter isTableNode).map parseTable
          ++ (match es with
              | [] => []
              | g :: gs => walkTables g gs []) := by
  intro ds
  induction ds with
  | nil =>
    intro d h
    cases hb : isTableNode d with
    | true =>
      rw [walkTables_unfold]
      cases es with
      | nil => simp [hb, List.filter_cons]
      | cons g gs => simp [hb, List.filter_cons]
    | false =>
      have hc : children d = [] := by
        rcases h d (by simp) with h' | h'
        · rw [hb] at h'; cases h'
        · exact List.length_eq_zero.mp h'
      rw [walkTables_unfold]
      cases es with
      | nil => simp [hb, hc, List.filter_cons]
      | cons g gs => simp [hb, hc, List.filter_cons]
  | cons d' ds' ih =>
    intro d h
    cases hb : isTableNode d with
    | true =>
      rw [walkTables_unfold]
      simp only [hb, if_true]
      rw [ih d' (fun x hx => h x (List.mem_cons_of_mem _ hx))]
      simp [hb, List.filter_cons]
    | false =>
      have hc : children d = [] := by
        rcases h d (by simp) with h' | h'
        · rw [hb] at h'; cases h'
        · exact List.length_eq_zero.mp h'
      rw [walkTables_unfold]
      simp only [hb, hc, Bool.false_eq_true, if_false]
      rw [ih d' (fun x hx => h x (List.mem_cons_of_mem _ hx))]
      simp [hb, List.filter_cons]

theorem walk_level1 :
    ∀ (cs : List Node) (c : Node),
      (isTableNode c = true
        ∨ ∀ x ∈ children c, isTableNode x = true ∨ (children x).length = 0) →
      (∀ y ∈ cs, isTableNode y = true
        ∨ ∀ x ∈ children y, isTableNode x = true ∨ (children x).length = 0) →
      walkTables c cs [] = (topTables (c :: cs)).map parseTable := by
  intro cs
  induction cs with
  | nil =>
    intro c hc _
    cases hb : isTableNode c with
    | true =>
      rw [walkTables_unfold]
      simp [hb, topTables]
    | false =>
      rcases hch : children c with _ | ⟨d, ds⟩
      · rw [walkTables_unfold]
        simp [hb, hch, topTables]
      · have hcond : ∀ x ∈ d :: ds, isTableNode x = true ∨ (children x).length = 0 := by
          rcases hc with h' | h'
          · rw [hb] at h'; cases h'
          · rw [hch] at h'; exact h'
        rw [walkTables_unfold]
        simp only [hb, hch, Bool.false_eq_true, if_false]
        rw [walk_level2 [] ds d hcond]
        simp [topTables, hb, hch]
  | cons g gs ih =>
    intro c hc hcs
    have hg := hcs g (by simp)
    have hgs : ∀ y ∈ gs, isTableNode y = true
        ∨ ∀ x ∈ children y, isTableNode x = true ∨ (children x).length = 0 :=
      fun y hy => hcs y (List.mem_cons_of_mem _ hy)
    cases hb : isTableNode c with
    | true =>
      rw [walkTables_unfold]
      simp only [hb, if_true]
      rw [ih g hg hgs]
      simp [topTables, hb]
    | false =>
      rcases hch : children c with _ | ⟨d, ds⟩
      · rw [walkTables_unfold]
        simp only [hb, hch, Bool.false_eq_true, if_false]
        rw [ih g hg hgs]
        simp [topTables, hb, hch]
      · have hcond : ∀ x ∈ d :: ds, isTableNode x = true ∨ (children x).length = 0 := by
          rcases hc with h' | h'
          · rw [hb] at h'; cases h'
          · rw [hch] at h'; exact h'
        rw [walkTables_unfold]
        simp only [hb, hch, Bool.false_eq_true, if_false]
        rw [walk_level2 (g :: gs) ds d hcond]
        simp [topTables, hb, hch, ih g hg hgs]

/-- C1 counterexample: a document containing two table elements, the second
nested inside a cell of the first.  `parseTables` never descends into a table
element, so it extracts only ONE table — refuting "exactly one extracted
table per table element … regardless of nesting depth; nested tables are
extracted independently as separate entries". -/
theorem claim_C1_counterexample :
    countTablesList [Node.elem "table" [Node.elem "tbody" [Node.elem "tr"
      [Node.elem "td" [Node.elem "table" []]]]]] = 2
    ∧ (parseTables [Node.elem "table" [Node.elem "tbody" [Node.elem "tr"
      [Node.elem "td" [Node.elem "table" []]]]]]).length = 1 := by decide

/-- C1 (amended): the walk never descends into a table element and abandons a
dead end whose parent has no next sibling, so in general only outermost,
reachable tables are extracted.  For shallow documents — every document child
is a table element or has only table-or-childless children — `parseTables`
returns exactly one table per outermost table element, in document order. -/
theorem claim_C1_tables_extraction (docChildren : List Node)
    (h : ∀ c ∈ docChildren, isTableNode c = true
        ∨ ∀ x ∈ children c, isTableNode x = true ∨ (children x).length = 0) :
    parseTables docChildren = (topTables docChildren).map parseTable := by
  cases docChildren with
  | nil => rfl
  | cons c cs =>
    exact walk_level1 cs c (h c (by simp))
      (fun y hy => h y (List.mem_cons_of_mem _ hy))

/-- Witness for C1: a document with a top-level table and a second table
inside a div, extracted in document order. -/
theorem claim_C1_witness :
    parseTables [Node.elem "table" [Node.elem "tbody" []],
        Node.elem "div" [Node.text "x", Node.elem "table" []]]
      = (topTables [Node.elem "table" [Node.elem "tbody" []],
          Node.elem "div" [Node.text "x", Node.elem "table" []]]).map
          parseTable :=
  claim_C1_tables_extraction
    [Node.elem "table" [Node.elem "tbody" []],
     Node.elem "div" [Node.text "x", Node.elem "table" []]] (by decide)

theorem allTexts_of_text {d : Node} (h : isTextNode d = true) :
    allTexts d = textData d := by
  cases d <;> simp_all [isTextNode, textData, allTexts]

theorem allTexts_of_not_text {d : Node} (h : isTextNode d = false) :
    allTexts d = allTextsList (children d) := by
  cases d <;> simp_all [isTextNode, children, allTexts]

theorem walkC_level2 (es : List Node) :
    ∀ (ds : List Node) (d : Node),
      (∀ x ∈ d :: ds, (children x).length = 0) →
      walkContent d ds [es]
        = allTextsList (d :: ds)
          ++ (match es with
              | [] => ""
              | g :: gs => walkContent g gs []) := by
  intro ds
  induction ds with
  | nil =>
    intro d h
    cases hb : isTextNode d with
    | true =>
      rw [walkContent_unfold]
      cases es with
      | nil =>
        simp [hb, allTextsList, allTexts_of_text hb, String.append_empty]
      | cons g gs =>
        simp [hb, allTextsList, allTexts_of_text hb, String.append_empty,
          String.append_assoc]
    | false =>
      have hc : children d = [] := List.length_eq_zero.mp (h d (by simp))
      rw [walkContent_unfold]
      cases es with
      | nil =>
        simp [hb, hc, allTextsList, allTexts_of_not_text hb,
          String.append_empty, String.empty_append]
      | cons g gs =>
        simp [hb, hc, allTextsList, allTexts_of_not_text hb,
          String.append_empty, String.empty_append]
  | cons d' ds' ih =>
    intro d h
    cases hb : isTextNode d with
    | true =>
      rw [walkContent_unfold]
      simp only [hb, if_true]
      rw [ih d' (fun x hx => h x (List.mem_cons_of_mem _ hx))]
      simp [allTextsList, allTexts_of_text hb, String.append_assoc]
    | false =>
      have hc : children d = [] := List.length_eq_zero.mp (h d (by simp))
      rw [walkContent_unfold]
      simp only [hb, hc, Bool.false_eq_true, if_false]
      rw [ih d' (fun x hx => h x (List.mem_cons_of_mem _ hx))]
      simp [allTextsList, allTexts_of_not_text hb, hc, String.empty_append]

theorem walkC_level1 :
    ∀ (es : List Node) (e : Node),
      (∀ x ∈ children e, (children x).length = 0) →
      (∀ y ∈ es, ∀ x ∈ children y, (children x).length = 0) →
      walkContent e es [] = allTextsList (e :: es) := by
  intro es
  induction es with
  | nil =>
    intro e he _
    cases hb : isTextNode e with
    | true =>
      rw [walkContent_unfold]
      simp [hb, allTextsList, allTexts_of_text hb, String.append_empty]
    | false =>
      rcases hch : children e with _ | ⟨d, ds⟩
      · rw [walkContent_unfold]
        simp [hb, hch, allTextsList, allTexts_of_not_text hb,
          String.append_empty]
      · rw [walkContent_unfold]
        simp only [hb, hch, Bool.false_eq_true, if_false]
        rw [walkC_level2 [] ds d (by rw [← hch]; exact he)]
        simp [allTextsList, allTexts_of_not_text hb, hch, String.append_empty]
  | cons g gs ih =>
    intro e he hes
    have hg := hes g (by simp)
    have hgs : ∀ y ∈ gs, ∀ x ∈ children y, (children x).length = 0 :=
      fun y hy => hes y (List.mem_cons_of_mem _ hy)
    cases hb : isTextNode e with
    | true =>
      rw [walkContent_unfold]
      simp only [hb, if_true]
      rw [ih g hg hgs]
      simp [allTextsList, allTexts_of_text hb]
    | false =>
      rcases hch : children e with _ | ⟨d, ds⟩
      · rw [walkContent_unfold]
        simp only [hb, hch, Bool.false_eq_true, if_false]
        rw [ih g hg hgs]
        simp [allTextsList, allTexts_of_not_text hb, hch, String.empty_append]
      · rw [walkContent_unfold]
        simp only [hb, hch, Bool.false_eq_true, if_false]
        rw [walkC_level2 (g :: gs) ds d (by rw [← hch]; exact he)]
        simp [allTextsList, allTexts_of_not_text hb, hch,
          String.append_assoc, ih g hg hgs]

/-- C6 counterexample: in the cell
`<td><span><b>x</b></span>y</td>` the walk's one-level climb exits after the
text node "x" (its parent `b` has no next sibling), so the "y" text node —
a descendant text node of the cell in document order — is NOT concatenated:
the cell text is "x", not "xy". -/
theorem claim_C6_counterexample :
    cellText (Node.elem "td" [Node.elem "span" [Node.elem "b" [Node.text "x"]],
      Node.text "y"]) = "x"
    ∧ trimSpaceGo (allTextsList (children (Node.elem "td"
        [Node.elem "span" [Node.elem "b" [Node.text "x"]], Node.text "y"])))
      = "xy" := by decide

/-- C6 (amended): the cell walk climbs only one level at a dead end, so text
below depth 2 can be skipped; when every grandchild of the cell is childless
(all text at depth ≤ 2), the cell's text equals the concatenation of all
descendant text nodes in document order, with no separators, trimmed. -/
theorem claim_C6_cell_text (cellNode : Node)
    (h : ∀ e ∈ children cellNode, ∀ f ∈ children e, (children f).length = 0) :
    cellText cellNode = trimSpaceGo (allTextsList (children cellNode)) := by
  unfold cellText
  rcases hch : children cellNode with _ | ⟨c, cs⟩
  · simp [allTextsList]
  · rw [hch] at h
    have hc : ∀ x ∈ children c, (children x).length = 0 := h c (by simp)
    have hcs : ∀ y ∈ cs, ∀ x ∈ children y, (children x).length = 0 :=
      fun y hy => h y (by simp [hy])
    show trimSpaceGo (walkContent c cs []) = _
    rw [walkC_level1 cs c hc hcs]

/-- Witness for C6: a cell with one level of inline markup and adjacent text
nodes, where the concatenation inserts no separator and the result is
trimmed. -/
theorem claim_C6_witness :
    cellText (Node.elem "td" [Node.elem "b" [Node.text "x"], Node.text " y "])
      = trimSpaceGo (allTextsList (children (Node.elem "td"
          [Node.elem "b" [Node.text "x"], Node.text " y "]))) :=
  claim_C6_cell_text
    (Node.elem "td" [Node.elem "b" [Node.text "x"], Node.text " y "])
    (by decide)

/-- C4: For every schema and every row, a row whose cell count differs from
the schema's required count (9 for the interface table, 13 for the downstream
table, 9 for the upstream table) is never decoded: zero samples are emitted,
no parse failure is recorded, and the remaining rows are processed exactly as
if the mismatched row were absent. -/
theorem claim_C4_row_width_mismatch (σn σd σu : List (Nat × Desc))
    (rowN rowD rowU : List String) (restN restD restU : List (List String))
    (hN : rowN.length ≠ 9) (hD : rowD.length ≠ 13) (hU : rowU.length ≠ 9) :
    processNetworkRow σn rowN = ([], 0)
    ∧ processDownstreamRow σd rowD = ([], 0)
    ∧ processUpstreamRow σu rowU = ([], 0)
    ∧ sumRows (processNetworkRow σn) (rowN :: restN)
        = sumRows (processNetworkRow σn) restN
    ∧ sumRows (processDownstreamRow σd) (rowD :: restD)
        = sumRows (processDownstreamRow σd) restD
    ∧ sumRows (processUpstreamRow σu) (rowU :: restU)
        = sumRows (processUpstreamRow σu) restU := by
  simp [processNetworkRow, processDownstreamRow, processUpstreamRow, sumRows,
    hN, hD, hU]

/-- Witness for C4 at concrete inputs: a 1-cell row against each schema. -/
theorem claim_C4_witness :
    processNetworkRow networkMetrics ["x"] = ([], 0)
    ∧ processDownstreamRow downstreamChannelMetrics ["x"] = ([], 0)
    ∧ processUpstreamRow upstreamChannelMetrics ["x"] = ([], 0)
    ∧ sumRows (processNetworkRow networkMetrics) [["x"]]
        = sumRows (processNetworkRow networkMetrics) []
    ∧ sumRows (processDownstreamRow downstreamChannelMetrics) [["x"]]
        = sumRows (processDownstreamRow downstreamChannelMetrics) []
    ∧ sumRows (processUpstreamRow upstreamChannelMetrics) [["x"]]
        = sumRows (processUpstreamRow upstreamChannelMetrics) [] :=
  claim_C4_row_width_mismatch networkMetrics downstreamChannelMetrics
    upstreamChannelMetrics ["x"] ["x"] ["x"] [] [] []
    (by decide) (by decide) (by decide)

/-- C5: For every row of a channel table of the right width, if the
channel-index column `row[1]` fails to parse as an integer, zero samples are
emitted for the entire row and the page's parse-failure counter is
incremented exactly once. -/
theorem claim_C5_rowkey_failure (σd σu : List (Nat × Desc))
    (rowD rowU : List String) (hD : rowD.length = 13)
    (hDk : parseIntGo (rowD.getD 1 "") = none)
    (hU : rowU.length = 9) (hUk : parseIntGo (rowU.getD 1 "") = none) :
    processDownstreamRow σd rowD = ([], 1)
    ∧ processUpstreamRow σu rowU = ([], 1) := by
  refine ⟨?_, ?_⟩
  · unfold processDownstreamRow
    rw [if_neg (by omega), hDk]
  · unfold processUpstreamRow
    rw [if_neg (by omega), hUk]

/-- Witness for C5: rows of the right widths whose other columns would decode
successfully but whose channel-index cell is "x". -/
theorem claim_C5_witness :
    processDownstreamRow downstreamChannelMetrics
      ["", "x", "Locked", "QAM256", "Bonded", "603000000 Hz", "6400000 Hz",
       "35 dB", "3.5 dBmV", "256QAM", "100", "2", "0"] = ([], 1)
    ∧ processUpstreamRow upstreamChannelMetrics
      ["", "x", "Locked", "ATDMA", "Bonded", "36500000 Hz", "6400000 Hz",
       "36.0 dBmV", "ATDMA"] = ([], 1) :=
  claim_C5_rowkey_failure downstreamChannelMetrics upstreamChannelMetrics
    ["", "x", "Locked", "QAM256", "Bonded", "603000000 Hz", "6400000 Hz",
     "35 dB", "3.5 dBmV", "256QAM", "100", "2", "0"]
    ["", "x", "Locked", "ATDMA", "Bonded", "36500000 Hz", "6400000 Hz",
     "36.0 dBmV", "ATDMA"]
    (by decide) (by decide) (by decide) (by decide)

/-- C7: For every page of a poll, when the extracted tables fail the page's
structural minimum (statsifc.html: at least 1 table whose first table has at
least 2 rows; cmconnectionstatus.html: at least 3 tables with tables 1 and 2
each having at least 2 rows), the page contributes exactly one parse-failure
increment and no rows of any of its tables are decoded. -/
theorem claim_C7_structural_failure (σn σd σu : List (Nat × Desc))
    (cs1 cs2 : List Node)
    (h1 : (parseTables cs1).length < 1
        ∨ ((parseTables cs1).getD 0 []).length < 2)
    (h2 : (parseTables cs2).length < 3
        ∨ ((parseTables cs2).getD 1 []).length < 2
        ∨ ((parseTables cs2).getD 2 []).length < 2) :
    processStatsifc σn (.doc cs1) = ([], 1)
    ∧ processCmconn σd σu (.doc cs2) = ([], 1) := by
  constructor
  · simp only [processStatsifc]
    rw [if_pos h1]
  · simp only [processCmconn]
    rw [if_pos h2]

/-- Witness for C7: documents with no tables at all. -/
theorem claim_C7_witness :
    processStatsifc networkMetrics (.doc []) = ([], 1)
    ∧ processCmconn downstreamChannelMetrics upstreamChannelMetrics
        (.doc []) = ([], 1) :=
  claim_C7_structural_failure networkMetrics downstreamChannelMetrics
    upstreamChannelMetrics [] [] (by decide) (by decide)

theorem toCell_emit {r : NumResult} {d : Desc} {labels : List String}
    {m : Metric} (h : r.toCell d labels = .emit m) :
    m.desc = d ∧ m.labelValues = labels := by
  cases r with
  | val v =>
    simp only [NumResult.toCell] at h
    injection h with h'
    subst h'
    exact ⟨rfl, rfl⟩
  | skip => simp [NumResult.toCell] at h
  | fail => simp [NumResult.toCell] at h

theorem decodeNetworkCell_emit {row : List String} {i : Nat} {d : Desc}
    {m : Metric} (h : decodeNetworkCell row i d = .emit m) : m.desc = d := by
  unfold decodeNetworkCell at h
  split at h
  · simp at h
  · injection h with h'
    subst h'
    rfl

theorem decodeDownstreamCell_emit {cl : String} {row : List String} {i : Nat}
    {d : Desc} {m : Metric} (h : decodeDownstreamCell cl row i d = .emit m) :
    m.desc = d ∧ m.labelValues.head? = some cl := by
  unfold decodeDownstreamCell at h
  split_ifs at h <;>
    first
    | (split at h
       · simp at h
       · injection h with h'; subst h'; exact ⟨rfl, rfl⟩)
    | (injection h with h'; subst h'; exact ⟨rfl, rfl⟩)
    | (obtain ⟨h1, h2⟩ := toCell_emit h; exact ⟨h1, by simp [h2]⟩)

theorem decodeUpstreamCell_emit {cl : String} {row : List String} {i : Nat}
    {d : Desc} {m : Metric} (h : decodeUpstreamCell cl row i d = .emit m) :
    m.desc = d ∧ m.labelValues.head? = some cl := by
  unfold decodeUpstreamCell at h
  split_ifs at h <;>
    first
    | (injection h with h'; subst h'; exact ⟨rfl, rfl⟩)
    | (obtain ⟨h1, h2⟩ := toCell_emit h; exact ⟨h1, by simp [h2]⟩)

theorem processEntries_mem {f : Nat → Desc → CellResult} :
    ∀ {l : List (Nat × Desc)} {m : Metric}, m ∈ (processEntries f l).1 →
      ∃ i d, (i, d) ∈ l ∧ f i d = .emit m := by
  intro l
  induction l with
  | nil => intro m hm; simp [processEntries] at hm
  | cons hd tl ih =>
    intro m hm
    obtain ⟨i, d⟩ := hd
    simp only [processEntries] at hm
    cases hfd : f i d <;> rw [hfd] at hm
    · rcases List.mem_cons.mp hm with h | h
      · exact ⟨i, d, List.mem_cons_self _ _, by rw [hfd, h]⟩
      · obtain ⟨i', d', hmem, he⟩ := ih h
        exact ⟨i', d', List.mem_cons_of_mem _ hmem, he⟩
    · obtain ⟨i', d', hmem, he⟩ := ih hm
      exact ⟨i', d', List.mem_cons_of_mem _ hmem, he⟩
    · obtain ⟨i', d', hmem, he⟩ := ih hm
      exact ⟨i', d', List.mem_cons_of_mem _ hmem, he⟩

theorem sumRows_mem {f : List String → List Metric × Nat} :
    ∀ {rows : List (List String)} {m : Metric}, m ∈ (sumRows f rows).1 →
      ∃ r ∈ rows, m ∈ (f r).1 := by
  intro rows
  induction rows with
  | nil => intro m hm; simp [sumRows] at hm
  | cons r rest ih =>
    intro m hm
    simp only [sumRows] at hm
    rcases List.mem_append.mp hm with h | h
    · exact ⟨r, List.mem_cons_self _ _, h⟩
    · obtain ⟨r', hmem, hm'⟩ := ih h
      exact ⟨r', List.mem_cons_of_mem _ hmem, hm'⟩

theorem processNetworkRow_desc {σ : List (Nat × Desc)} {row : List String}
    {m : Metric} (h : m ∈ (processNetworkRow σ row).1) :
    m.desc ∈ σ.map Prod.snd := by
  unfold processNetworkRow at h
  split at h
  · simp at h
  · obtain ⟨i, d, hmem, he⟩ := processEntries_mem h
    rw [decodeNetworkCell_emit he]
    exact List.mem_map.mpr ⟨(i, d), hmem, rfl⟩

theorem processDownstreamRow_desc {σ : List (Nat × Desc)} {row : List String}
    {m : Metric} (h : m ∈ (processDownstreamRow σ row).1) :
    m.desc ∈ σ.map Prod.snd := by
  unfold processDownstreamRow at h
  split at h
  · simp at h
  · split at h
    · simp at h
    · obtain ⟨i, d, hmem, he⟩ := processEntries_mem h
      rw [(decodeDownstreamCell_emit he).1]
      exact List.mem_map.mpr ⟨(i, d), hmem, rfl⟩

theorem processUpstreamRow_desc {σ : List (Nat × Desc)} {row : List String}
    {m : Metric} (h : m ∈ (processUpstreamRow σ row).1) :
    m.desc ∈ σ.map Prod.snd := by
  unfold processUpstreamRow at h
  split at h
  · simp at h
  · split at h
    · simp at h
    · obtain ⟨i, d, hmem, he⟩ := processEntries_mem h
      rw [(decodeUpstreamCell_emit he).1]
      exact List.mem_map.mpr ⟨(i, d), hmem, rfl⟩

theorem processStatsifc_desc {σ : List (Nat × Desc)} {p : PageResult}
    {m : Metric} (h : m ∈ (processStatsifc σ p).1) :
    m.desc ∈ σ.map Prod.snd := by
  cases p with
  | fetchError => simp [processStatsifc] at h
  | parseError => simp [processStatsifc] at h
  | doc cs =>
    simp only [processStatsifc] at h
    split at h
    · simp at h
    · obtain ⟨r, _, hm⟩ := sumRows_mem h
      exact processNetworkRow_desc hm

theorem processCmconn_desc {σd σu : List (Nat × Desc)} {p : PageResult}
    {m : Metric} (h : m ∈ (processCmconn σd σu p).1) :
    m.desc ∈ σd.map Prod.snd ++ σu.map Prod.snd := by
  cases p with
  | fetchError => simp [processCmconn] at h
  | parseError => simp [processCmconn] at h
  | doc cs =>
    simp only [processCmconn] at h
    split at h
    · simp at h
    · rcases List.mem_append.mp h with h' | h'
      · obtain ⟨r, _, hm⟩ := sumRows_mem h'
        exact List.mem_append.mpr (.inl (processDownstreamRow_desc hm))
      · obtain ⟨r, _, hm⟩ := sumRows_mem h'
        exact List.mem_append.mpr (.inr (processUpstreamRow_desc hm))

/-- Every sample `scrape` emits carries a descriptor from the three rule
maps; in particular none of them is the `tc4400_up` descriptor. -/
theorem scrape_emissions_ne_up {p1 p2 : PageResult} {m : Metric}
    (h : m ∈ (scrape p1 p2).emissions) : m.desc ≠ targetUpMetric := by
  unfold scrape scrapeWith at h
  intro heq
  rcases List.mem_append.mp h with h' | h'
  · have hd := processStatsifc_desc h'
    rw [heq] at hd
    exact absurd hd (by decide)
  · have hd := processCmconn_desc h'
    rw [heq] at hd
    exact absurd hd (by decide)

/-- C3: On every poll, `Collect` emits the `tc4400_up` sample exactly once,
with the gauge value 1 that `scrape` returns unconditionally (the code's
`return 1` runs whatever happened per page, so "0 otherwise" is never
exercised); the up sample is independent of per-page failures; and when one
of the two page fetches fails, the scrape emissions are exactly those of the
other page. -/
theorem claim_C3_up_metric (p1 p2 : PageResult) (selfSamples : List Metric)
    (hself : ∀ m ∈ selfSamples, m.desc ≠ targetUpMetric) :
    (collectEmissions p1 p2 selfSamples).countP
        (fun m => decide (m.desc = targetUpMetric)) = 1
    ∧ (∀ m ∈ collectEmissions p1 p2 selfSamples, m.desc = targetUpMetric →
        m.value = .ofInt 1 ∧ m.vtype = .gauge)
    ∧ (p1 = .fetchError →
        (scrape p1 p2).emissions
          = (processCmconn downstreamChannelMetrics upstreamChannelMetrics p2).1)
    ∧ (p2 = .fetchError →
        (scrape p1 p2).emissions = (processStatsifc networkMetrics p1).1) := by
  refine ⟨?_, ?_, ?_, ?_⟩
  · simp only [collectEmissions, List.countP_append]
    have h1 : (scrape p1 p2).emissions.countP
        (fun m => decide (m.desc = targetUpMetric)) = 0 := by
      rw [List.countP_eq_zero]
      intro m hm
      simp [scrape_emissions_ne_up hm]
    have h2 : selfSamples.countP
        (fun m => decide (m.desc = targetUpMetric)) = 0 := by
      rw [List.countP_eq_zero]
      intro m hm
      simp [hself m hm]
    rw [h1, h2]
    simp [List.countP_cons]
  · intro m hm heq
    simp only [collectEmissions, List.mem_append] at hm
    rcases hm with (hm | hm) | hm
    · exact absurd heq (scrape_emissions_ne_up hm)
    · simp only [List.mem_singleton] at hm
      subst hm
      exact ⟨rfl, rfl⟩
    · exact absurd heq (hself m hm)
  · intro h
    subst h
    simp [scrape, scrapeWith, processStatsifc]
  · intro h
    subst h
    simp [scrape, scrapeWith, processCmconn]

/-- C2 counterexample: in a downstream row whose center-frequency cell is
"5 MHz" (unrecognized unit), the claim asserts one parse-failure increment;
but the code's `default: continue` in the unit switch runs BEFORE the error
check, so the cell is skipped silently: the whole row produces ZERO
parse-failure increments, refuting "the parse-failure counter for the source
page is incremented by exactly 1". -/
theorem claim_C2_counterexample :
    decodeDownstreamCell "01"
      ["", "1", "Locked", "QAM256", "Bonded", "5 MHz", "6400000 Hz",
       "35 dB", "3.5 dBmV", "256QAM", "100", "2", "0"] 5
      (newChannelMetric "downstream" "center_frequency_hz" []) = .skip
    ∧ (processDownstreamRow downstreamChannelMetrics
        ["", "1", "Locked", "QAM256", "Bonded", "5 MHz", "6400000 Hz",
         "35 dB", "3.5 dBmV", "256QAM", "100", "2", "0"]).2 = 0 := by decide

/-- C2 (amended): decoding a unit-suffixed integer cell yields the integer
scaled by the unit multiplier ("1000 kHz" → 1000000, "50 Hz" → 50); a cell
with an unrecognized unit ("5 MHz") fails to decode but SILENTLY: no sample
is emitted for that cell and the parse-failure counter is NOT incremented;
the counter is incremented only when the numeric token fails integer parsing
under a recognized unit ("x Hz"). -/
theorem claim_C2_unit_decoding :
    decodeUnitInt "1000 kHz" = .val (.ofInt 1000000)
    ∧ decodeUnitInt "50 Hz" = .val (.ofInt 50)
    ∧ decodeUnitInt "5 MHz" = .skip
    ∧ decodeUnitInt "x Hz" = .fail
    ∧ (∀ m ∈ (processDownstreamRow downstreamChannelMetrics
        ["", "1", "Locked", "QAM256", "Bonded", "5 MHz", "6400000 Hz",
         "35 dB", "3.5 dBmV", "256QAM", "100", "2", "0"]).1,
        m.desc ≠ newChannelMetric "downstream" "center_frequency_hz" [])
    ∧ (processDownstreamRow downstreamChannelMetrics
        ["", "1", "Locked", "QAM256", "Bonded", "5 MHz", "6400000 Hz",
         "35 dB", "3.5 dBmV", "256QAM", "100", "2", "0"]).2 = 0 := by decide

/-- C8 counterexample: a downstream row with channel index 100 decodes, and
every emitted sample carries the channel label "100" — three characters, not
a fixed-width 2-digit string, refuting "formatted as a fixed-width
zero-padded 2-digit string" for every decoded row. -/
theorem claim_C8_counterexample :
    ((processDownstreamRow downstreamChannelMetrics
        ["", "100", "x", "t", "x", "x", "x", "x", "x", "m", "x", "x", "x"]).1.map
        Metric.labelValues)
      = [["100"], ["100", "t"], ["100"], ["100", "m"]]
    ∧ ∃ m ∈ (processDownstreamRow downstreamChannelMetrics
        ["", "100", "x", "t", "x", "x", "x", "x", "x", "m", "x", "x", "x"]).1,
        (m.labelValues.headD "").length ≠ 2 := by decide

/-- C8 (amended): for every decoded channel-table row, the channel label on
every emitted sample is the row-key integer formatted with `%02d` — decimal,
zero-padded to a MINIMUM width of two, so exactly two digits whenever the
channel index is between 0 and 99 (e.g. channel 1 → "01"), and longer
otherwise. -/
theorem claim_C8_channel_label (σd σu : List (Nat × Desc))
    (rowD rowU : List String) (c e : Int)
    (hD : rowD.length = 13) (hDk : parseIntGo (rowD.getD 1 "") = some c)
    (hU : rowU.length = 9) (hUk : parseIntGo (rowU.getD 1 "") = some e) :
    (∀ m ∈ (processDownstreamRow σd rowD).1,
        m.labelValues.head? = some (sprintf02d c))
    ∧ (∀ m ∈ (processUpstreamRow σu rowU).1,
        m.labelValues.head? = some (sprintf02d e))
    ∧ (∀ k : Int, 0 ≤ k → k ≤ 99 → (sprintf02d k).length = 2) := by
  refine ⟨?_, ?_, ?_⟩
  · unfold processDownstreamRow
    rw [if_neg (by omega), hDk]
    intro m hm
    obtain ⟨i, d, _, he⟩ := processEntries_mem hm
    exact (decodeDownstreamCell_emit he).2
  · unfold processUpstreamRow
    rw [if_neg (by omega), hUk]
    intro m hm
    obtain ⟨i, d, _, he⟩ := processEntries_mem hm
    exact (decodeUpstreamCell_emit he).2
  · intro k h0 h99
    lift k to ℕ using h0
    have h99' : k ≤ 99 := by exact_mod_cast h99
    interval_cases k <;> decide

/-- Witness for C8: concrete downstream channel 7 and upstream channel 32. -/
theorem claim_C8_witness :
    (∀ m ∈ (processDownstreamRow downstreamChannelMetrics
        ["", "7", "Locked", "QAM256", "Bonded", "603000000 Hz", "6400000 Hz",
         "35 dB", "3.5 dBmV", "256QAM", "100", "2", "0"]).1,
        m.labelValues.head? = some (sprintf02d 7))
    ∧ (∀ m ∈ (processUpstreamRow upstreamChannelMetrics
        ["", "32", "Locked", "ATDMA", "Bonded", "36500000 Hz", "6400000 Hz",
         "36.0 dBmV", "ATDMA"]).1,
        m.labelValues.head? = some (sprintf02d 32))
    ∧ (∀ k : Int, 0 ≤ k → k ≤ 99 → (sprintf02d k).length = 2) :=
  claim_C8_channel_label downstreamChannelMetrics upstreamChannelMetrics
    ["", "7", "Locked", "QAM256", "Bonded", "603000000 Hz", "6400000 Hz",
     "35 dB", "3.5 dBmV", "256QAM", "100", "2", "0"]
    ["", "32", "Locked", "ATDMA", "Bonded", "36500000 Hz", "6400000 Hz",
     "36.0 dBmV", "ATDMA"] 7 32
    (by decide) (by decide) (by decide) (by decide)

/-- Witness for C3: the statsifc.html fetch fails transport, the other page
is an (empty) document, no self samples. -/
theorem claim_C3_witness :
    (collectEmissions PageResult.fetchError (PageResult.doc []) []).countP
        (fun m => decide (m.desc = targetUpMetric)) = 1
    ∧ (∀ m ∈ collectEmissions PageResult.fetchError (PageResult.doc []) [],
        m.desc = targetUpMetric →
          m.value = DecValue.ofInt 1 ∧ m.vtype = VType.gauge)
    ∧ (PageResult.fetchError = PageResult.fetchError →
        (scrape PageResult.fetchError (PageResult.doc [])).emissions
          = (processCmconn downstreamChannelMetrics upstreamChannelMetrics
              (PageResult.doc [])).1)
    ∧ (PageResult.doc [] = PageResult.fetchError →
        (scrape PageResult.fetchError (PageResult.doc [])).emissions
          = (processStatsifc networkMetrics PageResult.fetchError).1) :=
  claim_C3_up_metric PageResult.fetchError (PageResult.doc []) []
    (by intro m hm; simp at hm)

theorem processEntries_fst (f : Nat → Desc → CellResult) :
    ∀ l : List (Nat × Desc), (processEntries f l).1
      = l.filterMap (fun p =>
          match f p.1 p.2 with
          | .emit m => some m
          | _ => none) := by
  intro l
  induction l with
  | nil => rfl
  | cons hd tl ih =>
    obtain ⟨i, d⟩ := hd
    simp only [processEntries, List.filterMap_cons]
    cases hfd : f i d <;> simp [hfd, ih]

theorem processEntries_snd (f : Nat → Desc → CellResult) :
    ∀ l : List (Nat × Desc), (processEntries f l).2
      = l.countP (fun p =>
          match f p.1 p.2 with
          | .fail => true
          | _ => false) := by
  intro l
  induction l with
  | nil => rfl
  | cons hd tl ih =>
    obtain ⟨i, d⟩ := hd
    simp only [processEntries, List.countP_cons]
    cases hfd : f i d <;> simp [hfd, ih]

theorem processEntries_perm (f : Nat → Desc → CellResult)
    {σ σ' : List (Nat × Desc)} (h : σ.Perm σ') :
    (processEntries f σ).1.Perm (processEntries f σ').1
    ∧ (processEntries f σ).2 = (processEntries f σ').2 := by
  constructor
  · rw [processEntries_fst, processEntries_fst]
    exact h.filterMap _
  · rw [processEntries_snd, processEntries_snd]
    exact h.countP_eq _

theorem processNetworkRow_perm {σ σ' : List (Nat × Desc)} (h : σ.Perm σ')
    (row : List String) :
    (processNetworkRow σ row).1.Perm (processNetworkRow σ' row).1
    ∧ (processNetworkRow σ row).2 = (processNetworkRow σ' row).2 := by
  unfold processNetworkRow
  by_cases hl : row.length = 9
  · rw [if_neg (by omega), if_neg (by omega)]
    exact processEntries_perm _ h
  · rw [if_pos (by omega), if_pos (by omega)]
    exact ⟨.refl _, rfl⟩

theorem processDownstreamRow_perm {σ σ' : List (Nat × Desc)} (h : σ.Perm σ')
    (row : List String) :
    (processDownstreamRow σ row).1.Perm (processDownstreamRow σ' row).1
    ∧ (processDownstreamRow σ row).2 = (processDownstreamRow σ' row).2 := by
  unfold processDownstreamRow
  by_cases hl : row.length = 13
  · rw [if_neg (by omega), if_neg (by omega)]
    cases hp : parseIntGo (row.getD 1 "") <;> simp only [hp]
    · exact ⟨.refl _, trivial⟩
    · exact processEntries_perm _ h
  · rw [if_pos (by omega), if_pos (by omega)]
    exact ⟨.refl _, rfl⟩

theorem processUpstreamRow_perm {σ σ' : List (Nat × Desc)} (h : σ.Perm σ')
    (row : List String) :
    (processUpstreamRow σ row).1.Perm (processUpstreamRow σ' row).1
    ∧ (processUpstreamRow σ row).2 = (processUpstreamRow σ' row).2 := by
  unfold processUpstreamRow
  by_cases hl : row.length = 9
  · rw [if_neg (by omega), if_neg (by omega)]
    cases hp : parseIntGo (row.getD 1 "") <;> simp only [hp]
    · exact ⟨.refl _, trivial⟩
    · exact processEntries_perm _ h
  · rw [if_pos (by omega), if_pos (by omega)]
    exact ⟨.refl _, rfl⟩

theorem sumRows_congr {f g : List String → List Metric × Nat}
    (h : ∀ r, (f r).1.Perm (g r).1 ∧ (f r).2 = (g r).2) :
    ∀ rows : List (List String),
      (sumRows f rows).1.Perm (sumRows g rows).1
      ∧ (sumRows f rows).2 = (sumRows g rows).2 := by
  intro rows
  induction rows with
  | nil => exact ⟨.refl _, rfl⟩
  | cons r rest ih =>
    simp only [sumRows]
    exact ⟨(h r).1.append ih.1, by rw [(h r).2, ih.2]⟩

theorem processStatsifc_perm {σ σ' : List (Nat × Desc)} (h : σ.Perm σ')
    (p : PageResult) :
    (processStatsifc σ p).1.Perm (processStatsifc σ' p).1
    ∧ (processStatsifc σ p).2 = (processStatsifc σ' p).2 := by
  cases p with
  | fetchError => exact ⟨.refl _, rfl⟩
  | parseError => exact ⟨.refl _, rfl⟩
  | doc cs =>
    simp only [processStatsifc]
    by_cases hs : (parseTables cs).length < 1
        ∨ ((parseTables cs).getD 0 []).length < 2
    · rw [if_pos hs, if_pos hs]
      exact ⟨.refl _, rfl⟩
    · rw [if_neg hs, if_neg hs]
      exact sumRows_congr (fun r => processNetworkRow_perm h r) _

theorem processCmconn_perm {σd σd' σu σu' : List (Nat × Desc)}
    (hd : σd.Perm σd') (hu : σu.Perm σu') (p : PageResult) :
    (processCmconn σd σu p).1.Perm (processCmconn σd' σu' p).1
    ∧ (processCmconn σd σu p).2 = (processCmconn σd' σu' p).2 := by
  cases p with
  | fetchError => exact ⟨.refl _, rfl⟩
  | parseError => exact ⟨.refl _, rfl⟩
  | doc cs =>
    simp only [processCmconn]
    by_cases hs : (parseTables cs).length < 3
        ∨ ((parseTables cs).getD 1 []).length < 2
        ∨ ((parseTables cs).getD 2 []).length < 2
    · rw [if_pos hs, if_pos hs]
      exact ⟨.refl _, rfl⟩
    · rw [if_neg hs, if_neg hs]
      have h1 := sumRows_congr (fun r => processDownstreamRow_perm hd r)
        (((parseTables cs).getD 1 []).drop 2)
      have h2 := sumRows_congr (fun r => processUpstreamRow_perm hu r)
        (((parseTables cs).getD 2 []).drop 2)
      exact ⟨h1.1.append h2.1, by rw [h1.2, h2.2]⟩

/-- C10: For a fixed pair of fetched pages, any two executions of `scrape` —
differing only in the unspecified Go map iteration orders, i.e. run with any
permutations of the three rule-map entry lists — emit the same multiset of
samples and the same failure counts and up value; but the emission SEQUENCE
is not fixed: reversing the downstream map order emits the same row's samples
in a different order. -/
theorem claim_C10_determinism :
    (∀ (σn σd σu σn' σd' σu' : List (Nat × Desc)) (p1 p2 : PageResult),
        σn.Perm σn' → σd.Perm σd' → σu.Perm σu' →
        (scrapeWith σn σd σu p1 p2).emissions.Perm
            (scrapeWith σn' σd' σu' p1 p2).emissions
          ∧ (scrapeWith σn σd σu p1 p2).statsifcFailures
              = (scrapeWith σn' σd' σu' p1 p2).statsifcFailures
          ∧ (scrapeWith σn σd σu p1 p2).cmconnFailures
              = (scrapeWith σn' σd' σu' p1 p2).cmconnFailures
          ∧ (scrapeWith σn σd σu p1 p2).up = (scrapeWith σn' σd' σu' p1 p2).up)
    ∧ ((processDownstreamRow downstreamChannelMetrics.reverse
          ["", "1", "Locked", "QAM256", "Bonded", "603000000 Hz", "6400000 Hz",
           "35 dB", "3.5 dBmV", "256QAM", "100", "2", "0"]).1
        ≠ (processDownstreamRow downstreamChannelMetrics
          ["", "1", "Locked", "QAM256", "Bonded", "603000000 Hz", "6400000 Hz",
           "35 dB", "3.5 dBmV", "256QAM", "100", "2", "0"]).1
      ∧ (processDownstreamRow downstreamChannelMetrics.reverse
          ["", "1", "Locked", "QAM256", "Bonded", "603000000 Hz", "6400000 Hz",
           "35 dB", "3.5 dBmV", "256QAM", "100", "2", "0"]).1.Perm
          (processDownstreamRow downstreamChannelMetrics
          ["", "1", "Locked", "QAM256", "Bonded", "603000000 Hz", "6400000 Hz",
           "35 dB", "3.5 dBmV", "256QAM", "100", "2", "0"]).1) := by
  refine ⟨fun σn σd σu σn' σd' σu' p1 p2 hn hd hu => ?_, ?_, ?_⟩
  · obtain ⟨e1, f1⟩ := processStatsifc_perm hn p1
    obtain ⟨e2, f2⟩ := processCmconn_perm hd hu p2
    exact ⟨e1.append e2, f1, f2, rfl⟩
  · decide
  · exact (processDownstreamRow_perm (List.reverse_perm _) _).1

/-- Witness for C10: the reversed rule maps against the source order, on a
poll where both fetches fail. -/
theorem claim_C10_witness :
    (scrapeWith networkMetrics.reverse downstreamChannelMetrics.reverse
        upstreamChannelMetrics.reverse PageResult.fetchError
        PageResult.fetchError).emissions.Perm
      (scrapeWith networkMetrics downstreamChannelMetrics
        upstreamChannelMetrics PageResult.fetchError
        PageResult.fetchError).emissions
    ∧ (scrapeWith networkMetrics.reverse downstreamChannelMetrics.reverse
        upstreamChannelMetrics.reverse PageResult.fetchError
        PageResult.fetchError).statsifcFailures
      = (scrapeWith networkMetrics downstreamChannelMetrics
          upstreamChannelMetrics PageResult.fetchError
          PageResult.fetchError).statsifcFailures
    ∧ (scrapeWith networkMetrics.reverse downstreamChannelMetrics.reverse
        upstreamChannelMetrics.reverse PageResult.fetchError
        PageResult.fetchError).cmconnFailures
      = (scrapeWith networkMetrics downstreamChannelMetrics
          upstreamChannelMetrics PageResult.fetchError
          PageResult.fetchError).cmconnFailures
    ∧ (scrapeWith networkMetrics.reverse downstreamChannelMetrics.reverse
        upstreamChannelMetrics.reverse PageResult.fetchError
        PageResult.fetchError).up
      = (scrapeWith networkMetrics downstreamChannelMetrics
          upstreamChannelMetrics PageResult.fetchError
          PageResult.fetchError).up :=
  claim_C10_determinism.1 networkMetrics.reverse
    downstreamChannelMetrics.reverse upstreamChannelMetrics.reverse
    networkMetrics downstreamChannelMetrics upstreamChannelMetrics
    PageResult.fetchError PageResult.fetchError
    (List.reverse_perm _) (List.reverse_perm _) (List.reverse_perm _)
